import Mathlib

/-!
Verification of the resume-parser service (`src/main.py`) against its
natural-language specification.

The development shallowly embeds the Python module: JSON/Python values become
the inductive `PyVal`, Python dicts become association lists with unique keys,
fallible Python code returns `Except PyErr`, and the external Gemini model is
an oracle field of `GeminiEnv`.  Every definition is translated from the
source; the one exception is `specScanOrder`, a second rendering of the
payload-search order written from the specification's own words, used to state
the refinement theorem for the payload interpreter.
-/

set_option maxRecDepth 10000

/-- Python exceptions that the embedded code can raise.  `typeError` models
`TypeError` (e.g. iterating a non-iterable); `exception` stands for any other
`Exception` raised by the external model call. -/
inductive PyErr where
  | typeError
  | exception
deriving DecidableEq, Repr

/-- A Python value as produced by `json.loads` and manipulated by `main.py`.
Python dicts are association lists with unique keys (insertion order is
significant, as in Python).  JSON floats are kept exactly as a decimal
mantissa/exponent pair `m * 10 ^ e`; no claim depends on float arithmetic. -/
inductive PyVal where
  | none : PyVal
  | bool : Bool → PyVal
  | int : Int → PyVal
  | float : Int → Int → PyVal
  | str : String → PyVal
  | list : List PyVal → PyVal
  | dict : List (String × PyVal) → PyVal

/-! Total size of a value tree; used as recursion fuel where the Python code
recurses through `json.loads` output. -/

mutual

def pySize : PyVal → Nat
  | PyVal.none => 1
  | PyVal.bool _ => 1
  | PyVal.int _ => 1
  | PyVal.float _ _ => 1
  | PyVal.str _ => 1
  | PyVal.list xs => 1 + pySizeList xs
  | PyVal.dict kvs => 1 + pySizeDict kvs

def pySizeList : List PyVal → Nat
  | [] => 0
  | x :: xs => pySize x + pySizeList xs

def pySizeDict : List (String × PyVal) → Nat
  | [] => 0
  | kv :: kvs => pySize kv.2 + pySizeDict kvs

end

/-- Python truthiness (`bool(v)`): `None`, `False`, `0`, `0.0`, `""`, `[]`
and `{}` are falsy. -/
def pyTruthy : PyVal → Bool
  | PyVal.none => false
  | PyVal.bool b => b
  | PyVal.int n => decide (n ≠ 0)
  | PyVal.float m _ => decide (m ≠ 0)
  | PyVal.str s => decide (s ≠ "")
  | PyVal.list xs => !xs.isEmpty
  | PyVal.dict kvs => !kvs.isEmpty

/-- Python `a or b`: returns `a` when truthy, otherwise `b`. -/
def pyOr (a b : PyVal) : PyVal := if pyTruthy a then a else b

/-- Python `d.get(k)` on a dict represented as an association list. -/
def dictGet : List (String × PyVal) → String → Option PyVal
  | [], _ => Option.none
  | kv :: rest, k => if kv.1 = k then some kv.2 else dictGet rest k

/-- Python `d[k] = v`: replace the value in place if the key exists (keeping
its position), otherwise append a new entry.  This is how `json.loads` builds
objects, so duplicate keys keep the first position with the last value. -/
def dictSet (d : List (String × PyVal)) (k : String) (v : PyVal) :
    List (String × PyVal) :=
  if (dictGet d k).isSome then
    d.map (fun kv => if kv.1 = k then (k, v) else kv)
  else d ++ [(k, v)]

/-- Characters stripped by Python `str.strip()` (ASCII whitespace; the exotic
Unicode space classes never appear in the concrete inputs considered). -/
def isPyWs (c : Char) : Bool :=
  c = ' ' || c = '\t' || c = '\n' || c = '\r' || c = Char.ofNat 11 || c = Char.ofNat 12

/-- Truthiness of `s.strip()`: `s` contains at least one non-whitespace char. -/
def hasNonWs (s : String) : Bool := s.toList.any (fun c => !(isPyWs c))

/-- Python truthiness of an `Optional[str]` (`None` and `""` are falsy). -/
def optTruthy : Option String → Bool
  | some s => decide (s ≠ "")
  | Option.none => false

/-- Python truthiness of `os.getenv(...)` results. -/
def strOptTruthy : Option String → Bool
  | some s => decide (s ≠ "")
  | Option.none => false

/-- Join strings with a separator (used by the repr/dumps printers). -/
def joinSep (sep : String) : List String → String
  | [] => ""
  | [x] => x
  | x :: xs => x ++ sep ++ joinSep sep xs

/-- Concatenate the results of `f` over a list (a local `flatMap`). -/
def flatMapL (f : α → List β) : List α → List β
  | [] => []
  | x :: xs => f x ++ flatMapL f xs

/-- The characters `{` and `}` (written via code points). -/
def lbrace : Char := Char.ofNat 123

def rbrace : Char := Char.ofNat 125

def lbraceS : String := String.singleton lbrace

def rbraceS : String := String.singleton rbrace

def squote : Char := Char.ofNat 39

def dquote : Char := Char.ofNat 34

/-- Hex digit (lower case) for `\xNN`-style escapes. -/
def hexDigit (n : Nat) : Char :=
  if n < 10 then Char.ofNat (48 + n) else Char.ofNat (87 + n)

def hexByte (n : Nat) : String :=
  String.mk [hexDigit (n / 16 % 16), hexDigit (n % 16)]

def hexWord (n : Nat) : String :=
  String.mk [hexDigit (n / 4096 % 16), hexDigit (n / 256 % 16),
             hexDigit (n / 16 % 16), hexDigit (n % 16)]

/-- Escape one character the way Python `repr` does inside a quoted string
with quote character `q`. -/
def reprEscChar (q : Char) (c : Char) : String :=
  if c = '\\' then "\\\\"
  else if c = q then String.mk ['\\', q]
  else if c = '\n' then "\\n"
  else if c = '\r' then "\\r"
  else if c = '\t' then "\\t"
  else if c.toNat < 32 || c.toNat = 127 then "\\x" ++ hexByte c.toNat
  else String.singleton c

/-- Python `repr` of a string: single quotes, unless the string contains a
single quote and no double quote. -/
def reprStrPy (s : String) : String :=
  let q := if s.toList.contains squote && !(s.toList.contains dquote)
           then dquote else squote
  String.singleton q ++ joinSep "" (s.toList.map (reprEscChar q)) ++ String.singleton q

/-- Decimal rendering of the exact float kept by the parser.  Python renders
floats by shortest round-trip; no claim depends on this formatting, so the
plain `m`e`e` scientific form is used. -/
def floatReprPy (m e : Int) : String := toString m ++ "e" ++ toString e

/-- Python `repr`, fuel-recursive over the value tree (the fuel passed by
`pyStr` always suffices because each recursion step descends one level). -/
def pyReprF : Nat → PyVal → String
  | 0, _ => ""
  | n + 1, v =>
    match v with
    | PyVal.none => "None"
    | PyVal.bool b => if b then "True" else "False"
    | PyVal.int i => toString i
    | PyVal.float m e => floatReprPy m e
    | PyVal.str s => reprStrPy s
    | PyVal.list xs => "[" ++ joinSep ", " (xs.map (pyReprF n)) ++ "]"
    | PyVal.dict kvs =>
        lbraceS ++
          joinSep ", " (kvs.map (fun kv => reprStrPy kv.1 ++ ": " ++ pyReprF n kv.2)) ++
          rbraceS

/-- Python `str(v)`: the string itself for strings, `repr`-style rendering
otherwise (matching `str` on `None`, booleans, ints, lists and dicts). -/
def pyStr (v : PyVal) : String :=
  match v with
  | PyVal.str s => s
  | _ => pyReprF (pySize v + 1) v

/-- Escape one character as in Python `json.dumps` (default `ensure_ascii`). -/
def jsonEscChar (c : Char) : String :=
  if c = dquote then String.mk ['\\', dquote]
  else if c = '\\' then "\\\\"
  else if c = '\n' then "\\n"
  else if c = '\r' then "\\r"
  else if c = '\t' then "\\t"
  else if c = Char.ofNat 8 then "\\b"
  else if c = Char.ofNat 12 then "\\f"
  else if c.toNat < 32 then "\\u" ++ hexWord c.toNat
  else if c.toNat < 128 then String.singleton c
  else if c.toNat < 65536 then "\\u" ++ hexWord c.toNat
  else
    let n := c.toNat - 65536
    "\\u" ++ hexWord (55296 + n / 1024) ++ "\\u" ++ hexWord (56320 + n % 1024)

def jsonEscStr (s : String) : String :=
  String.singleton dquote ++ joinSep "" (s.toList.map jsonEscChar) ++ String.singleton dquote

/-- Python `json.dumps` with default separators, fuel-recursive. -/
def jsonDumpsF : Nat → PyVal → String
  | 0, _ => ""
  | n + 1, v =>
    match v with
    | PyVal.none => "null"
    | PyVal.bool b => if b then "true" else "false"
    | PyVal.int i => toString i
    | PyVal.float m e => floatReprPy m e
    | PyVal.str s => jsonEscStr s
    | PyVal.list xs => "[" ++ joinSep ", " (xs.map (jsonDumpsF n)) ++ "]"
    | PyVal.dict kvs =>
        lbraceS ++
          joinSep ", " (kvs.map (fun kv => jsonEscStr kv.1 ++ ": " ++ jsonDumpsF n kv.2)) ++
          rbraceS

def jsonDumps (v : PyVal) : String := jsonDumpsF (pySize v + 1) v

/-! ## JSON parsing (`json.loads`)

A strict RFC-8259 parser matching Python's `json.loads`: whole-input parse,
no trailing commas, no leading zeros, raw control characters rejected inside
strings, duplicate object keys resolved last-value-wins.  (The non-standard
`NaN`/`Infinity` literals accepted by Python are not modelled; no claim
involves them.)  Recursion is on explicit fuel so that the kernel can
evaluate the parser on concrete inputs; `jsonParse` supplies fuel that is
always sufficient because every recursive step consumes input. -/

def isJsonWs (c : Char) : Bool := c = ' ' || c = '\t' || c = '\n' || c = '\r'

def skipWs : List Char → List Char
  | [] => []
  | c :: cs => if isJsonWs c then skipWs cs else c :: cs

def hexVal (c : Char) : Option Nat :=
  if '0' ≤ c && c ≤ '9' then some (c.toNat - 48)
  else if 'a' ≤ c && c ≤ 'f' then some (c.toNat - 87)
  else if 'A' ≤ c && c ≤ 'F' then some (c.toNat - 55)
  else Option.none

def hex4 (a b c d : Char) : Option Nat := do
  let va ← hexVal a
  let vb ← hexVal b
  let vc ← hexVal c
  let vd ← hexVal d
  pure (va * 4096 + vb * 256 + vc * 16 + vd)

/-- Parse the body of a JSON string (the opening quote already consumed),
returning the decoded string and the rest of the input.  Surrogate pairs in
`\uXXXX` escapes are combined as Python does; an unpaired surrogate is kept
as-is when it is a valid scalar, else replaced by `�` (unreachable in
the inputs considered). -/
def pStrBody (acc : List Char) : List Char → Option (String × List Char)
  | [] => Option.none
  | c :: rest =>
    if c = dquote then some (String.mk acc.reverse, rest)
    else if c = '\\' then
      match rest with
      | [] => Option.none
      | e :: rest2 =>
        if e = dquote then pStrBody (dquote :: acc) rest2
        else if e = '\\' then pStrBody ('\\' :: acc) rest2
        else if e = '/' then pStrBody ('/' :: acc) rest2
        else if e = 'b' then pStrBody (Char.ofNat 8 :: acc) rest2
        else if e = 'f' then pStrBody (Char.ofNat 12 :: acc) rest2
        else if e = 'n' then pStrBody ('\n' :: acc) rest2
        else if e = 'r' then pStrBody ('\r' :: acc) rest2
        else if e = 't' then pStrBody ('\t' :: acc) rest2
        else if e = 'u' then
          match rest2 with
          | h1 :: h2 :: h3 :: h4 :: rest3 =>
            match hex4 h1 h2 h3 h4 with
            | Option.none => Option.none
            | some n =>
              if 55296 ≤ n && n < 56320 then
                match rest3 with
                | '\\' :: 'u' :: g1 :: g2 :: g3 :: g4 :: rest4 =>
                  match hex4 g1 g2 g3 g4 with
                  | some m =>
                    if 56320 ≤ m && m < 57344 then
                      pStrBody
                        (Char.ofNat (65536 + (n - 55296) * 1024 + (m - 56320)) :: acc)
                        rest4
                    else Option.none
                  | Option.none => Option.none
                | _ => Option.none
              else pStrBody (Char.ofNat n :: acc) rest3
          | _ => Option.none
        else Option.none
    else if c.toNat < 32 then Option.none
    else pStrBody (c :: acc) rest

/-- Span of decimal digits. -/
def spanDigits : List Char → (List Char × List Char)
  | [] => ([], [])
  | c :: cs =>
    if c.isDigit then
      let (d, r) := spanDigits cs
      (c :: d, r)
    else ([], c :: cs)

def digitsToNat (ds : List Char) : Nat :=
  ds.foldl (fun acc c => acc * 10 + (c.toNat - 48)) 0

/-- Parse a JSON number (strict grammar: optional minus, `0` or a nonzero
digit followed by digits, optional fraction, optional exponent).  An integer
literal yields `PyVal.int`; any fraction or exponent yields `PyVal.float`. -/
def pNumber (cs : List Char) : Option (PyVal × List Char) :=
  let (neg, cs1) := match cs with
    | '-' :: r => (true, r)
    | _ => (false, cs)
  match cs1 with
  | [] => Option.none
  | c :: _ =>
    if ¬ c.isDigit then Option.none
    else
      let (intDs, cs2) := spanDigits cs1
      if decide (1 < intDs.length) && decide (intDs.head? = some '0') then Option.none
      else
        let (fracDs, cs3) := match cs2 with
          | '.' :: r =>
            let (d, r2) := spanDigits r
            (d, r2)
          | _ => ([], cs2)
        -- a dot must be followed by at least one digit
        if (match cs2 with | '.' :: _ => fracDs.isEmpty | _ => false) then Option.none
        else
          let hasFrac := match cs2 with | '.' :: _ => true | _ => false
          let (hasExp, expNeg, expDs, cs4) := match cs3 with
            | 'e' :: '+' :: r => let (d, r2) := spanDigits r; (true, false, d, r2)
            | 'e' :: '-' :: r => let (d, r2) := spanDigits r; (true, true, d, r2)
            | 'e' :: r => let (d, r2) := spanDigits r; (true, false, d, r2)
            | 'E' :: '+' :: r => let (d, r2) := spanDigits r; (true, false, d, r2)
            | 'E' :: '-' :: r => let (d, r2) := spanDigits r; (true, true, d, r2)
            | 'E' :: r => let (d, r2) := spanDigits r; (true, false, d, r2)
            | _ => (false, false, [], cs3)
          if hasExp && expDs.isEmpty then Option.none
          else
            let mantNat : Nat := digitsToNat intDs * 10 ^ fracDs.length + digitsToNat fracDs
            let mant : Int := if neg then -(mantNat : Int) else (mantNat : Int)
            let expVal : Int :=
              (if expNeg then -(digitsToNat expDs : Int) else (digitsToNat expDs : Int)) -
                (fracDs.length : Int)
            if hasFrac || hasExp then some (PyVal.float mant expVal, cs4)
            else some (PyVal.int mant, cs4)

/-- Parser mode: a plain value, the members of an object being accumulated,
or the items of an array being accumulated. -/
inductive PMode where
  | val
  | obj (acc : List (String × PyVal))
  | arr (acc : List PyVal)

/-- The recursive JSON parser.  In `obj`/`arr` modes the input starts at a key
or item (separating whitespace already skipped, the empty-container case
already handled by the caller). -/
def pRun : Nat → PMode → List Char → Option (PyVal × List Char)
  | 0, _, _ => Option.none
  | fuel + 1, PMode.val, cs =>
    match cs with
    | [] => Option.none
    | c :: rest =>
      if c = lbrace then
        match skipWs rest with
        | c2 :: r2 => if c2 = rbrace then some (PyVal.dict [], r2)
                      else pRun fuel (PMode.obj []) (c2 :: r2)
        | [] => Option.none
      else if c = '[' then
        match skipWs rest with
        | ']' :: r2 => some (PyVal.list [], r2)
        | cs2 => pRun fuel (PMode.arr []) cs2
      else if c = dquote then
        match pStrBody [] rest with
        | some (s, r) => some (PyVal.str s, r)
        | Option.none => Option.none
      else if c = 't' then
        match rest with
        | 'r' :: 'u' :: 'e' :: r => some (PyVal.bool true, r)
        | _ => Option.none
      else if c = 'f' then
        match rest with
        | 'a' :: 'l' :: 's' :: 'e' :: r => some (PyVal.bool false, r)
        | _ => Option.none
      else if c = 'n' then
        match rest with
        | 'u' :: 'l' :: 'l' :: r => some (PyVal.none, r)
        | _ => Option.none
      else if c = '-' || c.isDigit then pNumber cs
      else Option.none
  | fuel + 1, PMode.obj acc, cs =>
    match cs with
    | c :: rest =>
      if c = dquote then
        match pStrBody [] rest with
        | some (k, r1) =>
          match skipWs r1 with
          | ':' :: r2 =>
            match pRun fuel PMode.val (skipWs r2) with
            | some (v, r3) =>
              let acc2 := dictSet acc k v
              match skipWs r3 with
              | ',' :: r4 => pRun fuel (PMode.obj acc2) (skipWs r4)
              | c5 :: r4 => if c5 = rbrace then some (PyVal.dict acc2, r4) else Option.none
              | [] => Option.none
            | Option.none => Option.none
          | _ => Option.none
        | Option.none => Option.none
      else Option.none
    | [] => Option.none
  | fuel + 1, PMode.arr acc, cs =>
    match pRun fuel PMode.val cs with
    | some (v, r1) =>
      match skipWs r1 with
      | ',' :: r2 => pRun fuel (PMode.arr (acc ++ [v])) (skipWs r2)
      | ']' :: r2 => some (PyVal.list (acc ++ [v]), r2)
      | _ => Option.none
    | Option.none => Option.none

/-- `json.loads`: parse the whole string (surrounding whitespace allowed),
`Option.none` on any parse error. -/
def jsonParse (s : String) : Option PyVal :=
  let cs := skipWs s.toList
  match pRun (2 * s.length + 4) PMode.val cs with
  | some (v, rest) => if skipWs rest = [] then some v else Option.none
  | Option.none => Option.none

/-- `_safe_json_loads` from `main.py`: `json.loads` with every exception
converted to `None`.  (Note `json.loads "null"` also yields `None`; the two
cases are indistinguishable downstream, exactly as in the source.) -/
def safeJsonLoads (s : String) : PyVal :=
  match jsonParse s with
  | some v => v
  | Option.none => PyVal.none

example : safeJsonLoads "" = PyVal.none := rfl
example : safeJsonLoads "null" = PyVal.none := rfl
example : safeJsonLoads "\x7b\"a\": 1\x7d" = PyVal.dict [("a", PyVal.int 1)] := rfl
example : safeJsonLoads "\x7b\"a\": [true, \"x\", 2.5]\x7d" =
    PyVal.dict [("a", PyVal.list [PyVal.bool true, PyVal.str "x", PyVal.float 25 (-1)])] := rfl
example : safeJsonLoads "\x7b\"experience\": 5\x7d" =
    PyVal.dict [("experience", PyVal.int 5)] := rfl
example : safeJsonLoads "01" = PyVal.none := rfl
example : safeJsonLoads "  \x7b \"k\" : \"v\" \x7d  " = PyVal.dict [("k", PyVal.str "v")] := rfl

/-! ## `_find_text_payload` (Payload Interpreter search) -/

/-- The key-priority order of `_find_text_payload`. -/
def textKeys : List String := ["raw_text", "text", "resume", "content"]

/-- The `for item in value` loop of `_find_text_payload` for a list-typed
value (`f` is the recursive call on nested dicts). -/
def scanItemsWith (f : List (String × PyVal) → Option String) :
    List PyVal → Option String
  | [] => Option.none
  | it :: more =>
    match it with
    | PyVal.dict d2 =>
      let nested := f d2
      if optTruthy nested then nested else scanItemsWith f more
    | PyVal.str s => if hasNonWs s then some s else scanItemsWith f more
    | _ => scanItemsWith f more

/-- The body of one key iteration of `_find_text_payload`: a non-blank string
is returned as-is, a dict is searched recursively, a list is scanned in
order; anything else (including an absent key, i.e. `None`) yields nothing. -/
def scanValueWith (f : List (String × PyVal) → Option String) (v : PyVal) :
    Option String :=
  match v with
  | PyVal.str s => if hasNonWs s then some s else Option.none
  | PyVal.dict d2 =>
    let nested := f d2
    if optTruthy nested then nested else Option.none
  | PyVal.list items => scanItemsWith f items
  | _ => Option.none

/-- The `for key in text_keys` loop of `_find_text_payload`. -/
def scanKeysWith (f : List (String × PyVal) → Option String)
    (d : List (String × PyVal)) : List String → Option String
  | [] => Option.none
  | k :: ks =>
    match scanValueWith f ((dictGet d k).getD PyVal.none) with
    | some s => some s
    | Option.none => scanKeysWith f d ks

/-- `_find_text_payload`, fuel-recursive (one unit of fuel per nesting
level, so the fuel supplied by `findTextPayload` always suffices). -/
def findF : Nat → List (String × PyVal) → Option String
  | 0, _ => Option.none
  | n + 1, d => scanKeysWith (fun d2 => findF n d2) d textKeys

/-- `_find_text_payload` from `main.py`. -/
def findTextPayload (d : List (String × PyVal)) : Option String :=
  findF (pySizeDict d + 1) d

/-- Modelled from the spec (§4.1 step 2), for the refinement theorem of the
Payload Interpreter: the list of every non-empty string value reachable by
scanning the keys `raw_text`, `text`, `resume`, `content` in that priority
order, recursing depth-first into objects and scanning list elements (strings
or objects) in order.  The text payload of the spec is the head of this
enumeration. -/
def specEnumValue (g : List (String × PyVal) → List String) (v : PyVal) :
    List String :=
  match v with
  | PyVal.str s => if hasNonWs s then [s] else []
  | PyVal.dict d2 => g d2
  | PyVal.list items =>
    flatMapL (fun it =>
      match it with
      | PyVal.dict d2 => g d2
      | PyVal.str s => if hasNonWs s then [s] else []
      | _ => []) items
  | _ => []

/-- Modelled from the spec: the full scan-order enumeration (see
`specEnumValue`). -/
def specScanOrder : Nat → List (String × PyVal) → List String
  | 0, _ => []
  | n + 1, d =>
    flatMapL
      (fun k => specEnumValue (fun d2 => specScanOrder n d2) ((dictGet d k).getD PyVal.none))
      textKeys

/-! ## `_ensure_shape` (Shape Normalizer) -/

/-- Python iteration (`for x in v`): lists yield their items, strings their
characters (as one-character strings), dicts their keys; `None`, booleans and
numbers are not iterable and raise `TypeError`. -/
def pyIter : PyVal → Except PyErr (List PyVal)
  | PyVal.list xs => Except.ok xs
  | PyVal.str s => Except.ok (s.toList.map (fun c => PyVal.str (String.singleton c)))
  | PyVal.dict kvs => Except.ok (kvs.map (fun kv => PyVal.str kv.1))
  | _ => Except.error PyErr.typeError

/-- `str(e.get(k, ""))`: the sub-field rebuild used for every scalar field of
an experience/education/project entry. -/
def strField (e : List (String × PyVal)) (k : String) : PyVal :=
  PyVal.str (pyStr ((dictGet e k).getD (PyVal.str "")))

/-- One iteration of the experience loop of `_ensure_shape`: non-dict
elements are skipped (`continue`), dict elements are rebuilt field by field. -/
def normExpElem : PyVal → Option PyVal
  | PyVal.dict e =>
    some (PyVal.dict
      [("company", strField e "company"),
       ("role", strField e "role"),
       ("years", strField e "years")])
  | _ => Option.none

/-- One iteration of the education loop of `_ensure_shape`. -/
def normEduElem : PyVal → Option PyVal
  | PyVal.dict e =>
    some (PyVal.dict
      [("degree", strField e "degree"),
       ("institution", strField e "institution"),
       ("years", strField e "years")])
  | _ => Option.none

/-- One iteration of the projects loop of `_ensure_shape`, including the
`tech` sub-list handling (`proj.get("tech") or []`, non-lists emptied,
elements stringified). -/
def normProjElem : PyVal → Option PyVal
  | PyVal.dict p =>
    let tech0 := pyOr ((dictGet p "tech").getD PyVal.none) (PyVal.list [])
    let tech : List PyVal :=
      match tech0 with
      | PyVal.list ts => ts.map (fun t => PyVal.str (pyStr t))
      | _ => []
    some (PyVal.dict
      [("name", strField p "name"),
       ("description", strField p "description"),
       ("tech", PyVal.list tech)])
  | _ => Option.none

/-- `_ensure_shape` from `main.py`.  The top-level fields are read with
`obj.get(k) or []`; `skills` is guarded by an `isinstance(..., list)` check
and stringified elementwise, while the three record lists are built by `for`
loops over the raw value — iteration of a truthy non-iterable raises
`TypeError`, which this embedding returns as `Except.error`. -/
def ensureShape (obj : List (String × PyVal)) :
    Except PyErr (List (String × PyVal)) :=
  let skillsV := pyOr ((dictGet obj "skills").getD PyVal.none) (PyVal.list [])
  let expV := pyOr ((dictGet obj "experience").getD PyVal.none) (PyVal.list [])
  let eduV := pyOr ((dictGet obj "education").getD PyVal.none) (PyVal.list [])
  let projV := pyOr ((dictGet obj "projects").getD PyVal.none) (PyVal.list [])
  let skills : List PyVal :=
    match skillsV with
    | PyVal.list xs => xs.map (fun x => PyVal.str (pyStr x))
    | _ => []
  match pyIter expV with
  | Except.error e => Except.error e
  | Except.ok expItems =>
    match pyIter eduV with
    | Except.error e => Except.error e
    | Except.ok eduItems =>
      match pyIter projV with
      | Except.error e => Except.error e
      | Except.ok projItems =>
        Except.ok
          [("skills", PyVal.list skills),
           ("experience", PyVal.list (expItems.filterMap normExpElem)),
           ("education", PyVal.list (eduItems.filterMap normEduElem)),
           ("projects", PyVal.list (projItems.filterMap normProjElem))]

/-! ## `_call_gemini` (Extraction Client) -/

/-- The process configuration and model oracle seen by `_call_gemini`:
the two credential variables, `GEMINI_MODEL`, whether the
`google.generativeai` import succeeded, and the external model call itself.
`callModel model prompt request` returns the reply text (`response.text`, or
`""` when the response has no such attribute) or the exception raised by
`genai.configure` / `GenerativeModel` / `generate_content`. -/
structure GeminiEnv where
  geminiApiKey : Option String
  googleApiKey : Option String
  geminiModel : Option String
  genaiAvailable : Bool
  callModel : String → String → String → Except PyErr String

/-- Truthiness of `os.getenv("GEMINI_API_KEY") or os.getenv("GOOGLE_API_KEY")`
(the `if not api_key` guard). -/
def apiKeyTruthy (env : GeminiEnv) : Bool :=
  strOptTruthy env.geminiApiKey || strOptTruthy env.googleApiKey

/-- `os.getenv("GEMINI_MODEL", "gemini-2.0-flash-exp")`. -/
def modelIdOf (env : GeminiEnv) : String :=
  match env.geminiModel with
  | some s => s
  | Option.none => "gemini-2.0-flash-exp"

/-- The degraded result `{"missing": "gemini"}`. -/
def degraded : List (String × PyVal) := [("missing", PyVal.str "gemini")]

/-- The `schema_hint` literal of `_call_gemini`. -/
def schemaHint : PyVal :=
  PyVal.dict
    [("skills", PyVal.list [PyVal.str "Python", PyVal.str "AWS", PyVal.str "Docker"]),
     ("experience", PyVal.list
       [PyVal.dict
         [("company", PyVal.str "Acme Inc"),
          ("role", PyVal.str "Software Engineer"),
          ("years", PyVal.str "2020-2023")]]),
     ("education", PyVal.list
       [PyVal.dict
         [("degree", PyVal.str "BSc Computer Science"),
          ("institution", PyVal.str "XYZ University"),
          ("years", PyVal.str "2016-2020")]]),
     ("projects", PyVal.list
       [PyVal.dict
         [("name", PyVal.str "Cool App"),
          ("description", PyVal.str "Built X"),
          ("tech", PyVal.list [PyVal.str "React", PyVal.str "FastAPI"])]])]

/-- The fixed instructional prompt of `_call_gemini`. -/
def geminiPrompt : String :=
  "You are a resume extraction engine. Given resume content (as raw text or a JSON dump), produce STRICT JSON only (no prose) matching this Python-like example shape: \n"
    ++ jsonDumps schemaHint
    ++ "\nRules: return a minimal, accurate summary; omit fields if unknown by leaving empty strings; keep skills concise."

/-- The per-call request framing of `_call_gemini`. -/
def geminiRequest (raw_text : String) : String :=
  "INPUT:\n" ++ raw_text ++ "\n\nOUTPUT JSON:"

/-- `str.find` for a single character (index of first occurrence). -/
def firstIdxAux (c : Char) : List Char → Option Nat
  | [] => Option.none
  | x :: xs => if x = c then some 0 else (firstIdxAux c xs).map Nat.succ

/-- `str.rfind` for a single character (index of last occurrence). -/
def lastIdxOf (c : Char) (cs : List Char) : Option Nat :=
  (firstIdxAux c cs.reverse).map (fun i => cs.length - 1 - i)

/-- The candidate-JSON span of `_call_gemini`'s response handling:
`text[start : end + 1]` where `start = text.find("{")` and
`end = text.rfind("}")`, provided both exist and `end > start`. -/
def spanCandidate (text : String) : Option String :=
  let cs := text.toList
  match firstIdxAux lbrace cs, lastIdxOf rbrace cs with
  | some s, some e =>
    if s < e then some (String.mk ((cs.drop s).take (e + 1 - s))) else Option.none
  | _, _ => Option.none

/-- The tail of `_call_gemini`'s `try` block once the reply text is in hand:
extract the candidate span, parse it, and on a dict result run
`_ensure_shape` (whose `TypeError` would propagate to the `except` handler);
`Except.ok Option.none` models falling off the end of the `try` block. -/
def geminiTryTail (text : String) :
    Except PyErr (Option (List (String × PyVal))) :=
  match spanCandidate text with
  | some cand =>
    match safeJsonLoads cand with
    | PyVal.dict d =>
      match ensureShape d with
      | Except.ok out => Except.ok (some out)
      | Except.error e => Except.error e
    | _ => Except.ok Option.none
  | Option.none => Except.ok Option.none

/-- `_call_gemini` from `main.py`: degraded result when no credential is
configured or the model integration is missing; otherwise the model is
invoked and any exception (from the call or from `_ensure_shape`) is caught
by the `except Exception` handler, after which the degraded result is
returned.  The function is total: no path raises. -/
def callGemini (env : GeminiEnv) (raw_text : String) :
    List (String × PyVal) :=
  if apiKeyTruthy env = false then degraded
  else if env.genaiAvailable = false then degraded
  else
    match env.callModel (modelIdOf env) geminiPrompt (geminiRequest raw_text) with
    | Except.error _ => degraded
    | Except.ok text =>
      match geminiTryTail text with
      | Except.ok (some out) => out
      | Except.ok Option.none => degraded
      | Except.error _ => degraded

/-! ## `parse_resume` (Dispatch Entry Point) -/

/-- The canonical empty record returned for `None` input. -/
def emptyRecord : List (String × PyVal) :=
  [("skills", PyVal.list []),
   ("experience", PyVal.list []),
   ("education", PyVal.list []),
   ("projects", PyVal.list [])]

/-- The four structural keys checked by `parse_resume`. -/
def structuralKeys : List String := ["skills", "experience", "education", "projects"]

/-- Truthiness of `structured_keys.intersection(parsed)`: some structural key
is present in the parsed object. -/
def hasStructuralKey (d : List (String × PyVal)) : Bool :=
  structuralKeys.any (fun k => (dictGet d k).isSome)

/-- The dispatch decision of `parse_resume`: `None` input short-circuits to
the empty record; a parsed dict with a truthy text payload goes to the
Extraction Client with that payload; otherwise a dict with a structural key
goes to the Shape Normalizer; everything else goes to the Extraction Client
with the original raw input. -/
inductive Route where
  | emptyRecord
  | gemini (text : String)
  | normalize (d : List (String × PyVal))

def parseResumeRoute (raw_text : Option String) : Route :=
  match raw_text with
  | Option.none => Route.emptyRecord
  | some raw =>
    match safeJsonLoads raw with
    | PyVal.dict d =>
      let tp := findTextPayload d
      if optTruthy tp then Route.gemini (tp.getD "")
      else if hasStructuralKey d then Route.normalize d
      else Route.gemini raw
    | _ => Route.gemini raw

/-- `parse_resume` from `main.py`.  A `TypeError` raised by `_ensure_shape`
on the structural path propagates to the caller (`Except.error`). -/
def parse_resume (env : GeminiEnv) (raw_text : Option String) :
    Except PyErr (List (String × PyVal)) :=
  match parseResumeRoute raw_text with
  | Route.emptyRecord => Except.ok emptyRecord
  | Route.gemini t => Except.ok (callGemini env t)
  | Route.normalize d => ensureShape d

/-- The value at each of the four canonical keys exists and is a list. -/
def isFourListRecord (r : List (String × PyVal)) : Bool :=
  structuralKeys.all (fun k =>
    match dictGet r k with
    | some (PyVal.list _) => true
    | _ => false)

/-- The input parses to a JSON object containing a structural key (the
complement of C10's hypothesis). -/
def parsesToStructuralDict (raw : String) : Bool :=
  match safeJsonLoads raw with
  | PyVal.dict d => hasStructuralKey d
  | _ => false

/-! ## Canonical Resume Records (for the idempotence claim) -/

def isStrVal : PyVal → Bool
  | PyVal.str _ => true
  | _ => false

/-- An experience entry already in canonical shape. -/
def isExpRec : PyVal → Bool
  | PyVal.dict [("company", PyVal.str _), ("role", PyVal.str _), ("years", PyVal.str _)] => true
  | _ => false

/-- An education entry already in canonical shape. -/
def isEduRec : PyVal → Bool
  | PyVal.dict [("degree", PyVal.str _), ("institution", PyVal.str _), ("years", PyVal.str _)] =>
    true
  | _ => false

/-- A project entry already in canonical shape. -/
def isProjRec : PyVal → Bool
  | PyVal.dict [("name", PyVal.str _), ("description", PyVal.str _), ("tech", PyVal.list ts)] =>
    ts.all isStrVal
  | _ => false

/-- A Canonical Resume Record (spec §3): exactly the four fields in the
fixed output order, `skills` a list of strings, the other three lists of
entries of the documented shapes. -/
def isCanonicalRecord : List (String × PyVal) → Bool
  | [("skills", PyVal.list sk), ("experience", PyVal.list ex),
     ("education", PyVal.list ed), ("projects", PyVal.list pr)] =>
    sk.all isStrVal && ex.all isExpRec && ed.all isEduRec && pr.all isProjRec
  | _ => false

/-! Sanity checks on concrete inputs (mirroring the spec's examples). -/

example :
    findTextPayload [("resume", PyVal.dict [("content", PyVal.str "John Doe")])] =
      some "John Doe" := rfl

example :
    parseResumeRoute (some "\x7b\"resume\": \x7b\"content\": \"John Doe, 5 years Python experience\"\x7d\x7d") =
      Route.gemini "John Doe, 5 years Python experience" := rfl

example : parseResumeRoute Option.none = Route.emptyRecord := rfl

example :
    parseResumeRoute (some "\x7b\"experience\": [\x7b\"company\": \"Acme\"\x7d]\x7d") =
      Route.normalize [("experience", PyVal.list [PyVal.dict [("company", PyVal.str "Acme")]])] :=
  rfl

example :
    ensureShape [("experience", PyVal.list [PyVal.dict [("company", PyVal.str "Acme")]])] =
      Except.ok
        [("skills", PyVal.list []),
         ("experience", PyVal.list
           [PyVal.dict
             [("company", PyVal.str "Acme"), ("role", PyVal.str ""), ("years", PyVal.str "")]]),
         ("education", PyVal.list []),
         ("projects", PyVal.list [])] := rfl

example : ensureShape [("experience", PyVal.int 5)] = Except.error PyErr.typeError := rfl

example :
    ensureShape [("skills", PyVal.list [PyVal.str "Go"]), ("experience", PyVal.str "not-a-list")] =
      Except.ok
        [("skills", PyVal.list [PyVal.str "Go"]),
         ("experience", PyVal.list []),
         ("education", PyVal.list []),
         ("projects", PyVal.list [])] := rfl

example :
    spanCandidate "Here you go: \x7b\"skills\": [\"Go\"]\x7d Thanks" =
      some "\x7b\"skills\": [\"Go\"]\x7d" := rfl

/-! ## Helper lemmas -/

/-- Whenever `_ensure_shape` returns, the result carries the four canonical
keys with list values. -/
theorem ensureShape_ok_shape {obj out : List (String × PyVal)}
    (h : ensureShape obj = Except.ok out) : isFourListRecord out = true := by
  simp only [ensureShape] at h
  split at h
  · exact Except.noConfusion h
  · split at h
    · exact Except.noConfusion h
    · split at h
      · exact Except.noConfusion h
      · injection h with h2
        subst h2
        simp [isFourListRecord, structuralKeys, dictGet]

/-- A successful pass through the `try` block of `_call_gemini` that returns
a value always returns a `_ensure_shape` result. -/
theorem geminiTryTail_ok_some {text : String} {out : List (String × PyVal)}
    (h : geminiTryTail text = Except.ok (some out)) :
    ∃ d, ensureShape d = Except.ok out := by
  unfold geminiTryTail at h
  split at h
  · split at h
    · rename_i d hd
      split at h
      · rename_i o ho
        injection h with h2
        injection h2 with h3
        exact ⟨d, by rw [ho, h3]⟩
      · exact Except.noConfusion h
    · injection h with h2
      exact Option.noConfusion h2
  · injection h with h2
    exact Option.noConfusion h2

/-- Without a truthy credential, `_call_gemini` returns the degraded result
(and in particular never consults the model oracle). -/
theorem callGemini_noKey {env : GeminiEnv} (h : apiKeyTruthy env = false)
    (t : String) : callGemini env t = degraded := by
  unfold callGemini
  rw [h]
  simp

/-- Every `_call_gemini` result is either the degraded result or a
`_ensure_shape` success. -/
theorem callGemini_cases (env : GeminiEnv) (t : String) :
    callGemini env t = degraded ∨
      ∃ d, ensureShape d = Except.ok (callGemini env t) := by
  unfold callGemini
  split
  · exact Or.inl rfl
  · split
    · exact Or.inl rfl
    · split
      · exact Or.inl rfl
      · split
        · rename_i out hout
          exact Or.inr (geminiTryTail_ok_some hout)
        · exact Or.inl rfl
        · exact Or.inl rfl

/-- A raw input that does not parse to a structural object is always routed
to the Extraction Client (with some text). -/
theorem route_noStructural {raw : String}
    (hns : parsesToStructuralDict raw = false) :
    ∃ t, parseResumeRoute (some raw) = Route.gemini t := by
  unfold parsesToStructuralDict at hns
  unfold parseResumeRoute
  dsimp only
  split
  · rename_i d hd
    rw [hd] at hns
    have hns2 : hasStructuralKey d = false := hns
    split
    · exact ⟨_, rfl⟩
    · rw [hns2]
      exact ⟨raw, by simp⟩
  · exact ⟨raw, rfl⟩

/-! ## Claims -/

/-- Claim C9: given null input, `parse_resume` returns exactly the canonical
empty record; the dispatch decision is the `null` short-circuit, so neither
JSON parsing nor the Extraction Client is involved and the result is
independent of the configuration and model oracle. -/
theorem claim_C9 :
    parseResumeRoute Option.none = Route.emptyRecord ∧
    ∀ env : GeminiEnv,
      parse_resume env Option.none =
        Except.ok
          [("skills", PyVal.list []), ("experience", PyVal.list []),
           ("education", PyVal.list []), ("projects", PyVal.list [])] :=
  ⟨rfl, fun _ => rfl⟩

/-- Claim C2 (code bug): `_ensure_shape` is not total over mappings.  On
`{"experience": 5}` the `for exp in output["experience"]` loop iterates a
truthy non-iterable and raises `TypeError` (the `skills` field has an
`isinstance(..., list)` guard, the other three fields do not), so the same
`TypeError` also escapes `parse_resume` on the structural path. -/
theorem claim_C2_bug :
    ensureShape [("experience", PyVal.int 5)] = Except.error PyErr.typeError ∧
    ∀ env : GeminiEnv,
      parse_resume env (some "\x7b\"experience\": 5\x7d") =
        Except.error PyErr.typeError :=
  ⟨rfl, fun _ => rfl⟩

/-- A configuration with no credential, no `google.generativeai` package and
a failing model oracle. -/
def noKeyEnv : GeminiEnv :=
  { geminiApiKey := Option.none
    googleApiKey := Option.none
    geminiModel := Option.none
    genaiAvailable := false
    callModel := fun _ _ _ => Except.error PyErr.exception }

/-- Claim C1 counterexample: on the empty-string input with no credential
configured, `parse_resume` returns the degraded mapping
`{"missing": "gemini"}`, which does not contain the key `skills` (nor any of
the four canonical list-typed keys). -/
theorem claim_C1_counterexample :
    parse_resume noKeyEnv (some "") = Except.ok degraded ∧
    dictGet degraded "skills" = Option.none ∧
    isFourListRecord degraded = false :=
  ⟨rfl, rfl, rfl⟩

/-- Claim C1 as amended: whenever `parse_resume` returns normally, the result
is either a mapping with all four canonical keys bound to lists, or exactly
the degraded mapping `{"missing": "gemini"}` produced by the Extraction
Client (and on the structural path the normalizer may instead raise, see
`claim_C2_bug`). -/
theorem claim_C1_amended (env : GeminiEnv) (input : Option String)
    (r : List (String × PyVal)) (h : parse_resume env input = Except.ok r) :
    isFourListRecord r = true ∨ r = degraded := by
  unfold parse_resume at h
  split at h
  · injection h with h2
    subst h2
    exact Or.inl rfl
  · rename_i t heq
    injection h with h2
    subst h2
    rcases callGemini_cases env t with hc | ⟨d, hd⟩
    · exact Or.inr hc
    · exact Or.inl (ensureShape_ok_shape hd)
  · exact Or.inl (ensureShape_ok_shape h)

/-- Witness for `claim_C1_amended` at the concrete no-credential run on the
empty string. -/
theorem claim_C1_witness :
    isFourListRecord degraded = true ∨ degraded = degraded :=
  claim_C1_amended noKeyEnv (some "") degraded rfl

/-- Claim C3: the Extraction Client never raises.  With no truthy credential,
or with the model integration unavailable, it returns the degraded result for
every model oracle whatsoever (no network call can influence the result); and
when the model call itself raises, the exception is caught and the degraded
result is returned. -/
theorem claim_C3 (env : GeminiEnv) (t : String) :
    (apiKeyTruthy env = false →
      ∀ g, callGemini { env with callModel := g } t = degraded) ∧
    (env.genaiAvailable = false →
      ∀ g, callGemini { env with callModel := g } t = degraded) ∧
    (∀ e, env.callModel (modelIdOf env) geminiPrompt (geminiRequest t) = Except.error e →
      callGemini env t = degraded) := by
  refine ⟨?_, ?_, ?_⟩
  · intro h g
    have h2 : apiKeyTruthy { env with callModel := g } = false := h
    simp [callGemini, h2]
  · intro h g
    have h2 : ({ env with callModel := g } : GeminiEnv).genaiAvailable = false := h
    simp [callGemini, h2]
    intro _ hga
    rw [h] at hga
    exact Bool.noConfusion hga
  · intro e he
    simp [callGemini, modelIdOf] at he ⊢
    rw [he]
    simp

/-- Witness for `claim_C3` in the no-credential configuration on the spec's
example text. -/
theorem claim_C3_witness :
    callGemini
      { noKeyEnv with callModel := fun _ _ _ => Except.error PyErr.exception }
      "some text" = degraded :=
  (claim_C3 noKeyEnv "some text").1 rfl (fun _ _ _ => Except.error PyErr.exception)

/-- Claim C10: the degraded result is exactly `{"missing": "gemini"}` and
carries none of the four canonical keys; and with no credential configured,
every non-null input that does not parse to a JSON object containing a
structural key (the empty string included) makes `parse_resume` return
exactly that mapping. -/
theorem claim_C10 (env : GeminiEnv) (raw : String)
    (hkey : apiKeyTruthy env = false)
    (hns : parsesToStructuralDict raw = false) :
    parse_resume env (some raw) = Except.ok degraded ∧
    degraded = [("missing", PyVal.str "gemini")] ∧
    dictGet degraded "skills" = Option.none ∧
    dictGet degraded "experience" = Option.none ∧
    dictGet degraded "education" = Option.none ∧
    dictGet degraded "projects" = Option.none := by
  refine ⟨?_, rfl, rfl, rfl, rfl, rfl⟩
  rcases route_noStructural hns with ⟨t, ht⟩
  unfold parse_resume
  rw [ht]
  dsimp only
  rw [callGemini_noKey hkey]

/-- Witness for `claim_C10` on the empty string with no credential. -/
theorem claim_C10_witness :
    parse_resume noKeyEnv (some "") = Except.ok degraded :=
  (claim_C10 noKeyEnv "" rfl rfl).1

/-- Claim C6: when the input parses to a JSON object with no text payload and
no structural key, `parse_resume` hands the Extraction Client the original
raw input — the serialized form of the parsed object (it is exactly the
string whose `json.loads` image is that object). -/
theorem claim_C6 (raw : String) (d : List (String × PyVal))
    (hparse : safeJsonLoads raw = PyVal.dict d)
    (hnp : findTextPayload d = Option.none)
    (hns : hasStructuralKey d = false) :
    parseResumeRoute (some raw) = Route.gemini raw ∧
    ∀ env, parse_resume env (some raw) = Except.ok (callGemini env raw) := by
  have hroute : parseResumeRoute (some raw) = Route.gemini raw := by
    simp [parseResumeRoute, hparse, hnp, hns, optTruthy]
  refine ⟨hroute, fun env => ?_⟩
  unfold parse_resume
  rw [hroute]

/-- Witness for `claim_C6` on `{"name": "Bob"}` (no text key, no structural
key). -/
theorem claim_C6_witness :
    parseResumeRoute (some "\x7b\"name\": \"Bob\"\x7d") =
      Route.gemini "\x7b\"name\": \"Bob\"\x7d" :=
  (claim_C6 "\x7b\"name\": \"Bob\"\x7d" [("name", PyVal.str "Bob")] rfl rfl rfl).1

/-! ## Claim C5: structural routing and normalizer element handling -/

def isDictVal : PyVal → Bool
  | PyVal.dict _ => true
  | _ => false

/-- A normalizer loop body keeps exactly the dict elements. -/
theorem filterMap_dict_length {f : PyVal → Option PyVal}
    (hf : ∀ v, (f v).isSome = isDictVal v) :
    ∀ items : List PyVal,
      (items.filterMap f).length = (items.filter isDictVal).length := by
  intro items
  induction items with
  | nil => rfl
  | cons x xs ih =>
    cases hv : f x with
    | none =>
      have hx : isDictVal x = false := by rw [← hf x, hv]; rfl
      simp [List.filterMap_cons, List.filter_cons, hv, hx, ih]
    | some v =>
      have hx : isDictVal x = true := by rw [← hf x, hv]; rfl
      simp [List.filterMap_cons, List.filter_cons, hv, hx, ih]

theorem normExpElem_isSome (v : PyVal) : (normExpElem v).isSome = isDictVal v := by
  cases v <;> rfl

theorem normEduElem_isSome (v : PyVal) : (normEduElem v).isSome = isDictVal v := by
  cases v <;> rfl

theorem normProjElem_isSome (v : PyVal) : (normProjElem v).isSome = isDictVal v := by
  cases v <;> rfl

/-- Claim C5: a parsed object with no text payload but at least one
structural key is routed straight to the Shape Normalizer for every
configuration (the Extraction Client is never invoked); each of the three
record loops keeps exactly the mapping elements, silently dropping the rest;
a sub-field missing from a mapping element is rebuilt as the empty string;
and on the spec's example `{"experience": [{"company": "Acme"}]}` the entry
is completed with empty `role` and `years`. -/
theorem claim_C5 :
    (∀ (raw : String) (d : List (String × PyVal)),
      safeJsonLoads raw = PyVal.dict d →
      findTextPayload d = Option.none →
      hasStructuralKey d = true →
      parseResumeRoute (some raw) = Route.normalize d ∧
        ∀ env, parse_resume env (some raw) = ensureShape d) ∧
    (∀ items : List PyVal,
      (items.filterMap normExpElem).length = (items.filter isDictVal).length ∧
      (items.filterMap normEduElem).length = (items.filter isDictVal).length ∧
      (items.filterMap normProjElem).length = (items.filter isDictVal).length) ∧
    (∀ (e : List (String × PyVal)) (k : String),
      dictGet e k = Option.none → strField e k = PyVal.str "") ∧
    (∀ env,
      parse_resume env (some "\x7b\"experience\": [\x7b\"company\": \"Acme\"\x7d]\x7d") =
        Except.ok
          [("skills", PyVal.list []),
           ("experience", PyVal.list
             [PyVal.dict
               [("company", PyVal.str "Acme"),
                ("role", PyVal.str ""),
                ("years", PyVal.str "")]]),
           ("education", PyVal.list []),
           ("projects", PyVal.list [])]) := by
  refine ⟨?_, ?_, ?_, fun _ => rfl⟩
  · intro raw d hparse hnp hsk
    have hroute : parseResumeRoute (some raw) = Route.normalize d := by
      simp [parseResumeRoute, hparse, hnp, hsk, optTruthy]
    refine ⟨hroute, fun env => ?_⟩
    unfold parse_resume
    rw [hroute]
  · intro items
    exact ⟨filterMap_dict_length normExpElem_isSome items,
           filterMap_dict_length normEduElem_isSome items,
           filterMap_dict_length normProjElem_isSome items⟩
  · intro e k h
    unfold strField
    rw [h]
    rfl

/-- Witness for `claim_C5` at the spec's structural example. -/
theorem claim_C5_witness :
    parseResumeRoute (some "\x7b\"experience\": [\x7b\"company\": \"Acme\"\x7d]\x7d") =
      Route.normalize
        [("experience", PyVal.list [PyVal.dict [("company", PyVal.str "Acme")]])] :=
  (claim_C5.1 "\x7b\"experience\": [\x7b\"company\": \"Acme\"\x7d]\x7d"
    [("experience", PyVal.list [PyVal.dict [("company", PyVal.str "Acme")]])]
    rfl rfl rfl).1

/-! ## Claim C7: idempotence on canonical records -/

theorem pyOr_list_nil (xs : List PyVal) :
    pyOr (PyVal.list xs) (PyVal.list []) = PyVal.list xs := by
  cases xs <;> rfl

theorem strList_map_id {sk : List PyVal} (h : sk.all isStrVal = true) :
    sk.map (fun x => PyVal.str (pyStr x)) = sk := by
  induction sk with
  | nil => rfl
  | cons x xs ih =>
    simp only [List.all_cons, Bool.and_eq_true] at h
    obtain ⟨hx, hxs⟩ := h
    have hmap : PyVal.str (pyStr x) = x := by
      unfold isStrVal at hx
      split at hx
      · rfl
      · exact Bool.noConfusion hx
    rw [List.map_cons, hmap, ih hxs]

theorem normExpElem_canonical {v : PyVal} (h : isExpRec v = true) :
    normExpElem v = some v := by
  unfold isExpRec at h
  split at h
  · rfl
  · exact Bool.noConfusion h

theorem normEduElem_canonical {v : PyVal} (h : isEduRec v = true) :
    normEduElem v = some v := by
  unfold isEduRec at h
  split at h
  · rfl
  · exact Bool.noConfusion h

theorem normProjElem_canonical {v : PyVal} (h : isProjRec v = true) :
    normProjElem v = some v := by
  unfold isProjRec at h
  split at h
  · rename_i n ds ts
    have hstep :
        normProjElem (PyVal.dict
          [("name", PyVal.str n), ("description", PyVal.str ds),
           ("tech", PyVal.list ts)]) =
        some (PyVal.dict
          [("name", PyVal.str n), ("description", PyVal.str ds),
           ("tech", PyVal.list (ts.map (fun t => PyVal.str (pyStr t))))]) := by
      cases ts <;> rfl
    rw [hstep, strList_map_id h]
  · exact Bool.noConfusion h

theorem filterMap_canonical {p : PyVal → Bool} {f : PyVal → Option PyVal}
    (hf : ∀ v, p v = true → f v = some v) :
    ∀ {xs : List PyVal}, xs.all p = true → xs.filterMap f = xs := by
  intro xs
  induction xs with
  | nil => intro _; rfl
  | cons x l ih =>
    intro h
    simp only [List.all_cons, Bool.and_eq_true] at h
    obtain ⟨hx, hl⟩ := h
    simp [List.filterMap_cons, hf x hx, ih hl]

/-- Claim C7: the Shape Normalizer is idempotent on Canonical Resume
Records — normalizing an already-canonical record returns it unchanged. -/
theorem claim_C7 (r : List (String × PyVal)) (h : isCanonicalRecord r = true) :
    ensureShape r = Except.ok r := by
  unfold isCanonicalRecord at h
  split at h
  · rename_i sk ex ed pr
    simp only [Bool.and_eq_true] at h
    obtain ⟨⟨⟨hsk, hex⟩, hed⟩, hpr⟩ := h
    simp [ensureShape, dictGet, pyOr_list_nil, pyIter, strList_map_id hsk,
          filterMap_canonical (fun v => normExpElem_canonical) hex,
          filterMap_canonical (fun v => normEduElem_canonical) hed,
          filterMap_canonical (fun v => normProjElem_canonical) hpr]
  · exact Bool.noConfusion h

/-- A concrete Canonical Resume Record used as the idempotence witness. -/
def canonicalSample : List (String × PyVal) :=
  [("skills", PyVal.list [PyVal.str "Python"]),
   ("experience", PyVal.list
     [PyVal.dict
       [("company", PyVal.str "Acme Inc"),
        ("role", PyVal.str "Software Engineer"),
        ("years", PyVal.str "2020-2023")]]),
   ("education", PyVal.list
     [PyVal.dict
       [("degree", PyVal.str "BSc"),
        ("institution", PyVal.str "XYZ"),
        ("years", PyVal.str "2016-2020")]]),
   ("projects", PyVal.list
     [PyVal.dict
       [("name", PyVal.str "Cool App"),
        ("description", PyVal.str "Built X"),
        ("tech", PyVal.list [PyVal.str "React"])]])]

/-- Witness for `claim_C7` on a concrete canonical record. -/
theorem claim_C7_witness : ensureShape canonicalSample = Except.ok canonicalSample :=
  claim_C7 canonicalSample rfl

/-! ## Claim C4: the payload search follows the declared scan order -/

theorem mem_flatMapL {f : α → List β} {b : β} :
    ∀ {xs : List α}, b ∈ flatMapL f xs ↔ ∃ a ∈ xs, b ∈ f a := by
  intro xs
  induction xs with
  | nil => simp [flatMapL]
  | cons x l ih => simp [flatMapL, List.mem_append, ih]

theorem headQ_append (a b : List α) : (a ++ b).head? = a.head?.or b.head? := by
  cases a <;> rfl

/-- Every candidate enumerated by the spec's scan order is non-blank. -/
theorem specEnumValue_nonWs {g : List (String × PyVal) → List String}
    (hg : ∀ d2 s, s ∈ g d2 → hasNonWs s = true) (v : PyVal) (s : String)
    (hs : s ∈ specEnumValue g v) : hasNonWs s = true := by
  cases v with
  | str t =>
    have hs2 : s ∈ (if hasNonWs t = true then [t] else []) := hs
    by_cases ht : hasNonWs t = true
    · rw [if_pos ht] at hs2
      simp at hs2
      rw [hs2]
      exact ht
    · rw [if_neg ht] at hs2
      simp at hs2
  | dict d2 => exact hg d2 s hs
  | list items =>
    unfold specEnumValue at hs
    rw [mem_flatMapL] at hs
    obtain ⟨it, _, hit⟩ := hs
    cases it with
    | str t =>
      have hit2 : s ∈ (if hasNonWs t = true then [t] else []) := hit
      by_cases ht : hasNonWs t = true
      · rw [if_pos ht] at hit2
        simp at hit2
        rw [hit2]
        exact ht
      · rw [if_neg ht] at hit2
        simp at hit2
    | dict d2 => exact hg d2 s hit
    | list l2 => exact absurd hit (by simp)
    | none => exact absurd hit (by simp)
    | bool b => exact absurd hit (by simp)
    | int i => exact absurd hit (by simp)
    | float m e => exact absurd hit (by simp)
  | none => simp [specEnumValue] at hs
  | bool b => simp [specEnumValue] at hs
  | int i => simp [specEnumValue] at hs
  | float m e => simp [specEnumValue] at hs

theorem specScanOrder_nonWs :
    ∀ (n : Nat) (d : List (String × PyVal)) (s : String),
      s ∈ specScanOrder n d → hasNonWs s = true := by
  intro n
  induction n with
  | zero => intro d s hs; simp [specScanOrder] at hs
  | succ n ih =>
    intro d s hs
    unfold specScanOrder at hs
    rw [mem_flatMapL] at hs
    obtain ⟨k, _, hk⟩ := hs
    exact specEnumValue_nonWs (fun d2 t ht => ih d2 t ht) _ s hk

/-- The list-scanning loop finds the head of the spec's enumeration of the
same list. -/
theorem scanItems_spec {g : List (String × PyVal) → Option String}
    {G : List (String × PyVal) → List String}
    (hg : ∀ d2, g d2 = (G d2).head?)
    (hG : ∀ d2 s, s ∈ G d2 → hasNonWs s = true) :
    ∀ items : List PyVal,
      scanItemsWith g items =
        (flatMapL (fun it =>
          match it with
          | PyVal.dict d2 => G d2
          | PyVal.str s => if hasNonWs s then [s] else []
          | _ => []) items).head? := by
  intro items
  induction items with
  | nil => rfl
  | cons it more ih =>
    cases it with
    | dict d2 =>
      show (let nested := g d2;
            if optTruthy nested then nested else scanItemsWith g more) = _
      rw [hg d2]
      cases hGd : G d2 with
      | nil => simpa [flatMapL, hGd] using ih
      | cons s l =>
        have hs : hasNonWs s = true := hG d2 s (by rw [hGd]; exact List.mem_cons_self s l)
        have hne : s ≠ "" := by
          intro he
          rw [he] at hs
          exact Bool.noConfusion hs
        simp [flatMapL, hGd, headQ_append, optTruthy, hne]
    | str s =>
      by_cases hs : hasNonWs s = true
      · simp [scanItemsWith, flatMapL, hs]
      · simp only [Bool.not_eq_true] at hs
        simp [scanItemsWith, flatMapL, hs, ih]
    | list l2 => simpa [scanItemsWith, flatMapL] using ih
    | none => simpa [scanItemsWith, flatMapL] using ih
    | bool b => simpa [scanItemsWith, flatMapL] using ih
    | int i => simpa [scanItemsWith, flatMapL] using ih
    | float m e => simpa [scanItemsWith, flatMapL] using ih

/-- One key's handling in `_find_text_payload` finds the head of the spec's
enumeration for that key's value. -/
theorem scanValue_spec {g : List (String × PyVal) → Option String}
    {G : List (String × PyVal) → List String}
    (hg : ∀ d2, g d2 = (G d2).head?)
    (hG : ∀ d2 s, s ∈ G d2 → hasNonWs s = true) (v : PyVal) :
    scanValueWith g v = (specEnumValue G v).head? := by
  cases v with
  | str s =>
    by_cases hs : hasNonWs s = true
    · simp [scanValueWith, specEnumValue, hs]
    · simp only [Bool.not_eq_true] at hs
      simp [scanValueWith, specEnumValue, hs]
  | dict d2 =>
    show (let nested := g d2; if optTruthy nested then nested else Option.none) = _
    rw [hg d2]
    cases hGd : G d2 with
    | nil => simp [specEnumValue, hGd]
    | cons s l =>
      have hs : hasNonWs s = true := hG d2 s (by rw [hGd]; exact List.mem_cons_self s l)
      have hne : s ≠ "" := by
        intro he
        rw [he] at hs
        exact Bool.noConfusion hs
      simp [specEnumValue, hGd, optTruthy, hne]
  | list items => exact scanItems_spec hg hG items
  | none => rfl
  | bool b => rfl
  | int i => rfl
  | float m e => rfl

/-- The key loop of `_find_text_payload` finds the head of the concatenated
per-key enumerations. -/
theorem scanKeys_spec {g : List (String × PyVal) → Option String}
    {G : List (String × PyVal) → List String}
    (hg : ∀ d2, g d2 = (G d2).head?)
    (hG : ∀ d2 s, s ∈ G d2 → hasNonWs s = true) (d : List (String × PyVal)) :
    ∀ ks : List String,
      scanKeysWith g d ks =
        (flatMapL (fun k => specEnumValue G ((dictGet d k).getD PyVal.none)) ks).head? := by
  intro ks
  induction ks with
  | nil => rfl
  | cons k ks ih =>
    show (match scanValueWith g ((dictGet d k).getD PyVal.none) with
          | some s => some s
          | Option.none => scanKeysWith g d ks) = _
    rw [scanValue_spec hg hG]
    cases hv : specEnumValue G ((dictGet d k).getD PyVal.none) with
    | nil => simpa [flatMapL, hv] using ih
    | cons s l => simp [flatMapL, hv, headQ_append]

/-- `_find_text_payload` returns exactly the first element of the spec's
scan-order enumeration, at every fuel. -/
theorem findF_spec : ∀ (n : Nat) (d : List (String × PyVal)),
    findF n d = (specScanOrder n d).head? := by
  intro n
  induction n with
  | zero => intro d; rfl
  | succ n ih =>
    intro d
    unfold findF specScanOrder
    exact scanKeys_spec (fun d2 => ih d2)
      (fun d2 s hs => specScanOrder_nonWs n d2 s hs) d textKeys

/-- Claim C4: the Payload Interpreter's search scans `raw_text`, `text`,
`resume`, `content` in priority order, depth-first through objects and
in-order through lists, returning the first non-blank string: at every fuel
`_find_text_payload` equals the head of the spec-worded enumeration
`specScanOrder` (so the same holds for `findTextPayload` itself), and on the
spec's example the nested string is forwarded unchanged to the Extraction
Client. -/
theorem claim_C4 :
    (∀ (n : Nat) (d : List (String × PyVal)),
      findF n d = (specScanOrder n d).head?) ∧
    (∀ d : List (String × PyVal),
      findTextPayload d = (specScanOrder (pySizeDict d + 1) d).head?) ∧
    parseResumeRoute
        (some "\x7b\"resume\": \x7b\"content\": \"John Doe, 5 years Python experience\"\x7d\x7d") =
      Route.gemini "John Doe, 5 years Python experience" :=
  ⟨findF_spec, fun d => findF_spec (pySizeDict d + 1) d, rfl⟩

/-! ## Claim C8: response handling of the Extraction Client -/

/-- `str.find`: a hit decomposes the list with no earlier occurrence. -/
theorem firstIdxAux_spec {c : Char} :
    ∀ {cs : List Char} {i : Nat}, firstIdxAux c cs = some i →
      ∃ a b, cs = a ++ c :: b ∧ a.length = i ∧ ∀ x ∈ a, ¬ x = c := by
  intro cs
  induction cs with
  | nil => intro i h; exact Option.noConfusion h
  | cons x xs ih =>
    intro i h
    unfold firstIdxAux at h
    by_cases hx : x = c
    · rw [if_pos hx] at h
      injection h with h2
      subst h2
      subst hx
      exact ⟨[], xs, rfl, rfl, by intro y hy; exact absurd hy (by simp)⟩
    · rw [if_neg hx] at h
      cases hfi : firstIdxAux c xs with
      | none => rw [hfi] at h; exact Option.noConfusion h
      | some j =>
        rw [hfi] at h
        injection h with h2
        obtain ⟨a, b, hcs, hlen, hall⟩ := ih hfi
        have h2b : Nat.succ j = i := h2
        refine ⟨x :: a, b, by rw [hcs]; rfl, by simp only [List.length_cons, hlen]; omega, ?_⟩
        intro y hy
        rcases List.mem_cons.mp hy with hy1 | hy2
        · rw [hy1]; exact hx
        · exact hall y hy2

/-- `str.rfind`: a hit decomposes the list with no later occurrence. -/
theorem lastIdxOf_spec {c : Char} {cs : List Char} {j : Nat}
    (h : lastIdxOf c cs = some j) :
    ∃ u w, cs = u ++ c :: w ∧ u.length = j ∧ ∀ x ∈ w, ¬ x = c := by
  unfold lastIdxOf at h
  cases hfi : firstIdxAux c cs.reverse with
  | none => rw [hfi] at h; exact Option.noConfusion h
  | some i =>
    rw [hfi] at h
    injection h with h2
    obtain ⟨a, b, hrev, hlen, hall⟩ := firstIdxAux_spec hfi
    have hcs : cs = b.reverse ++ c :: a.reverse := by
      have h3 := congrArg List.reverse hrev
      rw [List.reverse_reverse] at h3
      rw [h3]
      simp
    have hlencs : cs.length = b.length + 1 + a.length := by
      rw [hcs]
      simp [List.length_append]
      omega
    refine ⟨b.reverse, a.reverse, hcs, ?_, ?_⟩
    · rw [List.length_reverse]
      have h2b : cs.length - 1 - i = j := h2
      omega
    · intro x hx
      rw [List.mem_reverse] at hx
      exact hall x hx

/-- The candidate span of `_call_gemini` is exactly the segment from the
first `{` to the last `}` of the reply: nothing before it is a `{`, nothing
after it is a `}`, and it starts with `{` and ends with `}`. -/
theorem spanCandidate_split {text c : String}
    (h : spanCandidate text = some c) :
    ∃ pre post : List Char,
      text.toList = pre ++ c.toList ++ post ∧
      (∀ x ∈ pre, ¬ x = lbrace) ∧
      (∀ x ∈ post, ¬ x = rbrace) ∧
      c.toList.head? = some lbrace ∧
      c.toList.getLast? = some rbrace := by
  simp only [spanCandidate] at h
  split at h
  · rename_i s e heq1 heq2
    split at h
    · rename_i hlt
      injection h with h2
      obtain ⟨p, q, hp, hplen, hpall⟩ := firstIdxAux_spec heq1
      obtain ⟨u, w, hu, hulen, hwall⟩ := lastIdxOf_spec heq2
      subst h2
      refine ⟨text.toList.take s, text.toList.drop (e + 1), ?_, ?_, ?_, ?_, ?_⟩
      · show text.toList =
          text.toList.take s ++ (text.toList.drop s).take (e + 1 - s) ++
            text.toList.drop (e + 1)
        have hsum : s + (e + 1 - s) = e + 1 := by omega
        have hsplit2 :
            (text.toList.drop s).take (e + 1 - s) ++ text.toList.drop (e + 1) =
              text.toList.drop s := by
          have h5 := List.take_append_drop (e + 1 - s) (text.toList.drop s)
          rw [List.drop_drop, hsum] at h5
          exact h5
        rw [List.append_assoc, hsplit2, List.take_append_drop]
      · have htake : text.toList.take s = p := by
          rw [hp, ← hplen, List.take_left]
        rw [htake]
        exact hpall
      · have hdropE : text.toList.drop e = rbrace :: w := by
          rw [hu, ← hulen, List.drop_left]
        have hdropE1 : text.toList.drop (e + 1) = w := by
          rw [← List.drop_drop 1 e, hdropE]
          rfl
        rw [hdropE1]
        exact hwall
      · show ((text.toList.drop s).take (e + 1 - s)).head? = some lbrace
        have hdropS : text.toList.drop s = lbrace :: q := by
          rw [hp, ← hplen, List.drop_left]
        have hes : e + 1 - s = (e - s) + 1 := by omega
        rw [hdropS, hes]
        rfl
      · show ((text.toList.drop s).take (e + 1 - s)).getLast? = some rbrace
        have hlen2 : e + 1 ≤ text.toList.length := by
          rw [hu]
          simp [List.length_append]
          omega
        have hlen_mid :
            ((text.toList.drop s).take (e + 1 - s)).length = e + 1 - s := by
          rw [List.length_take, List.length_drop]
          omega
        rw [List.getLast?_eq_getElem?, hlen_mid]
        have h3 : e + 1 - s - 1 = e - s := by omega
        rw [h3, List.getElem?_take_of_lt (by omega : e - s < e + 1 - s),
            List.getElem?_drop]
        have h4 : s + (e - s) = e := by omega
        rw [h4, hu, List.getElem?_append_right hulen.le, hulen]
        simp
    · exact Option.noConfusion h
  · exact Option.noConfusion h

/-- With a configured credential, an available integration and a reply
`text`, `_call_gemini` returns exactly what the response handling of the
`try` block produces. -/
theorem callGemini_reply {env : GeminiEnv} {raw text : String}
    (hk : apiKeyTruthy env = true) (hga : env.genaiAvailable = true)
    (hcall : env.callModel (modelIdOf env) geminiPrompt (geminiRequest raw) =
      Except.ok text) :
    callGemini env raw =
      (match geminiTryTail text with
       | Except.ok (some out) => out
       | Except.ok Option.none => degraded
       | Except.error _ => degraded) := by
  unfold callGemini
  rw [hk, hga, hcall]
  exact rfl

/-- The model used in the prose-wrapped reply example. -/
def proseReply : String := "Here you go: \x7b\"skills\": [\"Go\"]\x7d Thanks"

/-- A configuration whose oracle answers every request with `proseReply`. -/
def proseEnv : GeminiEnv :=
  { geminiApiKey := some "test-key"
    googleApiKey := Option.none
    geminiModel := Option.none
    genaiAvailable := true
    callModel := fun _ _ _ => Except.ok proseReply }

/-- Claim C8: the Extraction Client takes the span from the first `{` to the
last `}` of the reply as candidate JSON (`spanCandidate_split` gives the
exact decomposition); if there is no such span, or it does not parse to an
object, the degraded result is returned; a successful parse is passed
through the Shape Normalizer and its output returned; and on the
prose-wrapped reply `"Here you go: {"skills": ["Go"]} Thanks"` the embedded
object is isolated and normalized. -/
theorem claim_C8 :
    (∀ text c : String, spanCandidate text = some c →
      ∃ pre post : List Char,
        text.toList = pre ++ c.toList ++ post ∧
        (∀ x ∈ pre, ¬ x = lbrace) ∧
        (∀ x ∈ post, ¬ x = rbrace) ∧
        c.toList.head? = some lbrace ∧
        c.toList.getLast? = some rbrace) ∧
    (∀ (env : GeminiEnv) (raw text : String),
      apiKeyTruthy env = true → env.genaiAvailable = true →
      env.callModel (modelIdOf env) geminiPrompt (geminiRequest raw) =
        Except.ok text →
      (spanCandidate text = Option.none → callGemini env raw = degraded) ∧
      (∀ cand, spanCandidate text = some cand →
        isDictVal (safeJsonLoads cand) = false → callGemini env raw = degraded) ∧
      (∀ cand d out, spanCandidate text = some cand →
        safeJsonLoads cand = PyVal.dict d → ensureShape d = Except.ok out →
        callGemini env raw = out)) ∧
    callGemini proseEnv "any resume text" =
      [("skills", PyVal.list [PyVal.str "Go"]),
       ("experience", PyVal.list []),
       ("education", PyVal.list []),
       ("projects", PyVal.list [])] := by
  refine ⟨fun text c h => spanCandidate_split h, ?_, rfl⟩
  intro env raw text hk hga hcall
  refine ⟨?_, ?_, ?_⟩
  · intro hspan
    rw [callGemini_reply hk hga hcall]
    simp [geminiTryTail, hspan]
  · intro cand hspan hnd
    rw [callGemini_reply hk hga hcall]
    cases hv : safeJsonLoads cand with
    | dict d => rw [hv] at hnd; exact Bool.noConfusion hnd
    | none => simp [geminiTryTail, hspan, hv]
    | bool b => simp [geminiTryTail, hspan, hv]
    | int i => simp [geminiTryTail, hspan, hv]
    | float m e => simp [geminiTryTail, hspan, hv]
    | str s => simp [geminiTryTail, hspan, hv]
    | list l => simp [geminiTryTail, hspan, hv]
  · intro cand d out hspan hparse hok
    rw [callGemini_reply hk hga hcall]
    simp [geminiTryTail, hspan, hparse, hok]

/-- Witness for `claim_C8`: the success path at the concrete prose-wrapped
reply configuration. -/
theorem claim_C8_witness :
    callGemini proseEnv "any resume text" =
      [("skills", PyVal.list [PyVal.str "Go"]),
       ("experience", PyVal.list []),
       ("education", PyVal.list []),
       ("projects", PyVal.list [])] :=
  (claim_C8.2.1 proseEnv "any resume text" proseReply rfl rfl rfl).2.2
    "\x7b\"skills\": [\"Go\"]\x7d" [("skills", PyVal.list [PyVal.str "Go"])]
    [("skills", PyVal.list [PyVal.str "Go"]),
     ("experience", PyVal.list []),
     ("education", PyVal.list []),
     ("projects", PyVal.list [])]
    rfl rfl rfl
